import Mathlib

/-!
Verification of the Opportunity & Experiment Engine of the
Click-Through-Rate-Optimizer repository.

Shallow embedding conventions:
* Python floats are modelled as `ℚ` (all arithmetic in the engine is exact
  ratio arithmetic on counts and thresholds).
* Dates and datetimes are modelled as whole days (`ℤ`, days since an
  arbitrary epoch); `timedelta(days = n)` is addition of `n`.
* The external collaborators (metrics provider, content store) are passed in
  as explicit oracle functions.
* Fallible operations return `Option` / a success `Bool`, matching the
  Python `None` returns and boolean results.
-/

namespace CTRSys

/-! ### Outcome evaluation (`measurement.evaluate_experiment`) -/

/-- `config.MIN_POST_CHANGE_IMPRESSIONS` -/
def MIN_POST_CHANGE_IMPRESSIONS : ℤ := 50

/-- `config.IMPROVEMENT_THRESHOLD` -/
def IMPROVEMENT_THRESHOLD : ℚ := 5 / 100

/-- `config.WORSENED_THRESHOLD` -/
def WORSENED_THRESHOLD : ℚ := -(5 / 100)

/-- `config.POSITION_CHANGE_THRESHOLD` -/
def POSITION_CHANGE_THRESHOLD : ℚ := 2

/-- Experiment outcome strings of `measurement.evaluate_experiment`. -/
inductive Outcome where
  | improved
  | worsened
  | noChange
  | inconclusive
deriving DecidableEq

/-- The pre/post fields of an experiment row consulted by
`measurement.evaluate_experiment`. -/
structure ExperimentMetrics where
  preCtr : ℚ
  postCtr : ℚ
  prePosition : ℚ
  postPosition : ℚ
  postImpressions : ℤ
deriving DecidableEq

/-- `measurement.evaluate_experiment` lines 69-72: percentage CTR change,
with the division-by-zero guard. -/
def ctrChangePct (preCtr postCtr : ℚ) : ℚ :=
  if 0 < preCtr then (postCtr - preCtr) / preCtr
  else if 0 < postCtr then 1 else 0

/-- `measurement.evaluate_experiment` lines 53-105, restricted to the
outcome classification (the reason string and the confound flag do not feed
back into the outcome). -/
def evaluateExperiment (e : ExperimentMetrics) : Outcome :=
  if e.postImpressions < MIN_POST_CHANGE_IMPRESSIONS then Outcome.inconclusive
  else
    let c := ctrChangePct e.preCtr e.postCtr
    if IMPROVEMENT_THRESHOLD ≤ c then Outcome.improved
    else if c ≤ WORSENED_THRESHOLD then Outcome.worsened
    else Outcome.noChange

/-! ### Cooldown gate (`database.can_optimize_page`) -/

/-- `config.MIN_DAYS_BETWEEN_CHANGES` -/
def MIN_DAYS_BETWEEN_CHANGES : ℤ := 21

/-- `database.get_days_since_last_change`: `None` when the page was never
changed, otherwise whole days between now and the most recent change. -/
def getDaysSinceLastChange (now : ℤ) (lastChange : Option ℤ) : Option ℤ :=
  lastChange.map (fun lc => now - lc)

/-- `database.can_optimize_page`: never-changed pages are eligible,
otherwise the day count must reach `MIN_DAYS_BETWEEN_CHANGES`. -/
def canOptimizePage (now : ℤ) (lastChange : Option ℤ) : Bool :=
  match getDaysSinceLastChange now lastChange with
  | none => true
  | some d => MIN_DAYS_BETWEEN_CHANGES ≤ d

/-! ### Benchmark calculator (`gsc_client.calculate_position_benchmarks`) -/

/-- One row of `gsc_client.get_all_pages` as consumed by the benchmark
calculation: average position, impressions and clicks of a page. -/
structure PageSample where
  position : ℚ
  impressions : ℕ
  clicks : ℕ
deriving DecidableEq

/-- One stored row of `ctr_benchmarks`. -/
structure Benchmark where
  positionMin : ℚ
  positionMax : ℚ
  expectedCtr : ℚ
  sampleSize : ℕ
deriving DecidableEq

/-- The fixed `position_bands` list of
`gsc_client.calculate_position_benchmarks` (edges 1.0, 1.5, 2.5, 3.5, 5.5,
10.5, 20.5, 100.0). -/
def positionBands : List (ℚ × ℚ) :=
  [(1, 3/2), (3/2, 5/2), (5/2, 7/2), (7/2, 11/2),
   (11/2, 21/2), (21/2, 41/2), (41/2, 100)]

/-- The samples falling into a band: `min_pos <= position < max_pos`. -/
def bandPages (pages : List PageSample) (b : ℚ × ℚ) : List PageSample :=
  pages.filter (fun p => decide (b.1 ≤ p.position ∧ p.position < b.2))

/-- `gsc_client.calculate_position_benchmarks` lines 193-228, on the already
fetched page samples: for each non-empty band, the impression-weighted CTR
`total_clicks / total_impressions` (0 when the band's impressions sum to 0);
empty bands produce no row. -/
def calculatePositionBenchmarks (pages : List PageSample) : List Benchmark :=
  positionBands.filterMap (fun b =>
    let bp := bandPages pages b
    if bp.isEmpty then none
    else
      let totalImpressions : ℕ := (bp.map PageSample.impressions).sum
      let totalClicks : ℕ := (bp.map PageSample.clicks).sum
      let weightedCtr : ℚ :=
        if 0 < totalImpressions then (totalClicks : ℚ) / totalImpressions else 0
      some ⟨b.1, b.2, weightedCtr, bp.length⟩)

/-! ### Stable descending sort

Both `database.get_optimization_opportunities` (SQL `ORDER BY impact_score
DESC LIMIT n`) and `ideation.select_best_idea` (Python's stable
`list.sort(key=..., reverse=True)`) order records by a numeric key,
descending, keeping the original order of equal keys.  They are modelled by
a stable insertion sort. -/

/-- Insert `x` after every already placed element whose key is at least
`k x` (so an element arriving later never moves in front of an equal-keyed
earlier one). -/
def insertDescBy {α : Type} (k : α → ℚ) (x : α) : List α → List α
  | [] => [x]
  | y :: ys => if k y < k x then x :: y :: ys else y :: insertDescBy k x ys

/-- Stable descending sort by key `k`. -/
def sortDescBy {α : Type} (k : α → ℚ) (l : List α) : List α :=
  l.foldl (fun acc x => insertDescBy k x acc) []

/-- The first element attaining the maximal key, starting from seed `x`
(on ties the earlier element is kept). -/
def firstMaxBy {α : Type} (k : α → ℚ) (x : α) (l : List α) : α :=
  l.foldl (fun b y => if k b < k y then y else b) x

/-! ### Opportunity selection (`database.get_optimization_opportunities`,
`analysis.get_top_opportunities`) -/

/-- `config.MIN_CTR_GAP_PERCENT` -/
def MIN_CTR_GAP_PERCENT : ℚ := 5

/-- `config.MIN_IMPACT_SCORE` -/
def MIN_IMPACT_SCORE : ℚ := 5

/-- `config.MAX_EXPERIMENTS_PER_MONTH` -/
def MAX_EXPERIMENTS_PER_MONTH : ℕ := 50

/-- A stored `gsc_page_metrics` row, restricted to the columns the
opportunity query consults (`url` stands for the page identity). -/
structure Snapshot where
  url : ℕ
  reviewId : ℕ
  eligible : Bool
  ctrGap : ℚ
  impactScore : ℚ
deriving DecidableEq

/-- The `WHERE` clause of `database.get_optimization_opportunities`. -/
def opportunityFilter (reviewId : ℕ) (minCtrGap minImpact : ℚ)
    (s : Snapshot) : Bool :=
  decide (s.reviewId = reviewId) && s.eligible &&
    decide (minCtrGap ≤ s.ctrGap) && decide (minImpact ≤ s.impactScore)

/-- `database.get_optimization_opportunities` lines 837-860: filter the
review's rows by eligibility and thresholds (the gap threshold arrives as a
percentage and is divided by 100), order by `impact_score` descending, and
truncate to `max_results` rows. -/
def getOptimizationOpportunities (table : List Snapshot) (reviewId : ℕ)
    (minCtrGapPercent minImpactScore : ℚ) (maxResults : ℕ) : List Snapshot :=
  let minCtrGap := minCtrGapPercent / 100
  (sortDescBy Snapshot.impactScore
      (table.filter (opportunityFilter reviewId minCtrGap minImpactScore))).take
    maxResults

/-- `analysis.get_top_opportunities` lines 147-184, restricted to the row
selection (the per-row field re-packaging keeps order and content). -/
def getTopOpportunities (table : List Snapshot) (reviewId : ℕ) :
    List Snapshot :=
  getOptimizationOpportunities table reviewId MIN_CTR_GAP_PERCENT
    MIN_IMPACT_SCORE MAX_EXPERIMENTS_PER_MONTH

/-! ### Idea scoring (`ideation.select_best_idea`) -/

/-- A candidate title idea, with the fields the scorer consults. -/
structure TitleIdea where
  ideaType : String
  charCount : ℕ
deriving DecidableEq

/-- One row of `database.get_idea_type_performance`. -/
structure IdeaTypePerformance where
  ideaType : String
  successRate : ℚ
  totalExperiments : ℕ
deriving DecidableEq

/-- The `type_scores` dictionary of `ideation.select_best_idea` lines
181-190, read at key `t`: the last performance row for an idea type wins
(dict insertion overwrites), missing types get the 50 default.  The
source's `if not type_scores` branch writes 50 for every known type when
there is no performance data at all, which coincides with the 50 default of
`type_scores.get(idea['type'], 50)`. -/
def typeScore (perf : List IdeaTypePerformance) (t : String) : ℚ :=
  match perf.reverse.find? (fun p => p.ideaType == t) with
  | some p => p.successRate * min ((p.totalExperiments : ℚ) / 10) 1
  | none => 50

/-- The per-idea score of `ideation.select_best_idea` lines 193-204:
type score, +10 when the idea's type is not among `recentTypes`, −5 when
the stored character count exceeds 55. -/
def scoreIdea (perf : List IdeaTypePerformance) (recentTypes : List String)
    (idea : TitleIdea) : ℚ :=
  let base := typeScore perf idea.ideaType
  let withBonus := if idea.ideaType ∈ recentTypes then base else base + 10
  if 55 < idea.charCount then withBonus - 5 else withBonus

/-- `ideation.select_best_idea` lines 170-217: stable-sort the ideas by
score, descending, and return the first (the source raises on an empty
list, modelled as `none`); `history` is the page's experiment idea types,
most recent first, of which the first three feed the diversity bonus. -/
def selectBestIdea (ideas : List TitleIdea) (perf : List IdeaTypePerformance)
    (history : List String) : Option TitleIdea :=
  match ideas with
  | [] => none
  | x :: xs => (sortDescBy (scoreIdea perf (history.take 3)) (x :: xs)).head?

/-- Modelled from the spec (refinement side of C10): the additive score
formula as the claim states it, with the idea type's unique performance row
looked up directly. -/
def specIdeaScore (perf : List IdeaTypePerformance) (recentTypes : List String)
    (idea : TitleIdea) : ℚ :=
  (match perf.find? (fun p => p.ideaType == idea.ideaType) with
   | some p => p.successRate * min ((p.totalExperiments : ℚ) / 10) 1
   | none => 50)
  + (if idea.ideaType ∈ recentTypes then 0 else 10)
  - (if 55 < idea.charCount then 5 else 0)

/-! ### Measurement windows and page analysis
(`gsc_client.get_valid_date_range`, `gsc_client.get_page_first_seen_date`,
`analysis.analyze_all_pages`).  Dates are whole days; the metrics provider
is an oracle `query start end : Option Metrics` returning the row for the
page over that window, `none` when the provider has no row. -/

/-- `config.MIN_IMPRESSIONS_FOR_ANALYSIS` -/
def MIN_IMPRESSIONS_FOR_ANALYSIS : ℕ := 100

/-- The metrics row returned by `gsc_client.get_page_metrics`. -/
structure Metrics where
  impressions : ℕ
  clicks : ℕ
  ctr : ℚ
  position : ℚ
deriving DecidableEq

/-- `gsc_client.get_valid_date_range` lines 230-261: the window ends at
`now - 3` (the provider's reporting delay); with a last change it starts the
day after the change, is rejected (`none`) when that start does not precede
the end, and is clamped to at most `maxDays` days; without a last change it
is the trailing `maxDays`-day window. -/
def getValidDateRange (now : ℤ) (lastChangeDate : Option ℤ) (maxDays : ℤ) :
    Option (ℤ × ℤ) :=
  let endDate := now - 3
  match lastChangeDate with
  | some lc =>
    let startDate := lc + 1
    if endDate ≤ startDate then none
    else
      let earliest := endDate - maxDays
      let startClamped := if startDate < earliest then earliest else startDate
      some (startClamped, endDate)
  | none => some (endDate - maxDays, endDate)

/-- What `analysis.analyze_all_pages` does with one page in its loop body
(lines 80-138): either the page is skipped for the cycle, or it is scored
and stored with the given measurement window and metrics. -/
inductive PageAction where
  | skipped
  | scored (startDate endDate : ℤ) (m : Metrics)
deriving DecidableEq

/-- The per-page branch of `analysis.analyze_all_pages` lines 84-104,
together with the loop variables `start_date`/`end_date` it leaves behind
(`curStart`, `curEnd` are their values when the iteration begins; the
returned pair is their values after it). -/
def analyzePageStep (query : ℤ → ℤ → Option Metrics) (now : ℤ)
    (lastChange : Option ℤ) (page : Metrics) (curStart curEnd : ℤ) :
    PageAction × ℤ × ℤ :=
  match lastChange with
  | none => (PageAction.scored curStart curEnd page, curStart, curEnd)
  | some lc =>
    match getValidDateRange now (some lc) 90 with
    | none => (PageAction.skipped, curStart, curEnd)
    | some (adjStart, adjEnd) =>
      match query adjStart adjEnd with
      | some m =>
        if MIN_IMPRESSIONS_FOR_ANALYSIS ≤ m.impressions then
          (PageAction.scored adjStart adjEnd m, adjStart, adjEnd)
        else (PageAction.skipped, curStart, curEnd)
      | none => (PageAction.scored curStart curEnd page, curStart, curEnd)

/-- A page entering the `analyze_all_pages` loop: its identity and its
full-trailing-window metrics from `get_all_pages`. -/
structure PageInput where
  url : ℕ
  metrics : Metrics
deriving DecidableEq

/-- The part of a stored `gsc_page_metrics` row `analyze_all_pages` writes
that the window-independence question concerns: the page, the measurement
window, and the metrics stored with it. -/
structure StoredSnapshot where
  url : ℕ
  startDate : ℤ
  endDate : ℤ
  m : Metrics
deriving DecidableEq

/-- `analysis.analyze_all_pages` lines 44-144, restricted to the metric
storage: the loop starts from the full trailing window and carries the
mutable `start_date`/`end_date` across iterations exactly as the source
does (they are reassigned inside the loop when a page's window is
time-adjusted, and never reset). -/
def analyzeAllPages (query : ℕ → ℤ → ℤ → Option Metrics)
    (lastChangeOf : ℕ → Option ℤ) (now : ℤ) (pages : List PageInput) :
    List StoredSnapshot :=
  let init := (getValidDateRange now none 90).getD (0, 0)
  (pages.foldl (fun st page =>
      let step := analyzePageStep (query page.url) now (lastChangeOf page.url)
        page.metrics st.2.1 st.2.2
      match step.1 with
      | PageAction.skipped => (st.1, step.2)
      | PageAction.scored s e m => (st.1 ++ [⟨page.url, s, e, m⟩], step.2))
    ([], init)).1

/-- `gsc_client.get_page_first_seen_date` loop, lines 277-299: walk
backwards one 30-day chunk at a time; while the chunk has a row with
positive impressions remember its end boundary and continue, otherwise stop
and return the last remembered boundary. -/
def firstSeenLoop (query : ℤ → ℤ → Option Metrics) :
    ℕ → ℤ → Option ℤ → Option ℤ
  | 0, _, earliest => earliest
  | n + 1, curEnd, earliest =>
    let curStart := curEnd - 30
    match query curStart curEnd with
    | some m =>
      if 0 < m.impressions then firstSeenLoop query n curStart (some curEnd)
      else earliest
    | none => earliest

/-- `gsc_client.get_page_first_seen_date` lines 263-301: scan starts at
`now - 3` and runs for `16 * 30 / 30 = 16` chunks at most (the 16-month
retention horizon). -/
def getPageFirstSeenDate (query : ℤ → ℤ → Option Metrics) (now : ℤ) :
    Option ℤ :=
  firstSeenLoop query (16 * 30 / 30) (now - 3) none

/-- Whether the `i`-th backward 30-day chunk (0-indexed) below the boundary
`e0` shows a row with nonzero impressions. -/
def chunkHasData (query : ℤ → ℤ → Option Metrics) (e0 : ℤ) (i : ℕ) : Bool :=
  match query (e0 - 30 * ((i : ℤ) + 1)) (e0 - 30 * (i : ℤ)) with
  | some m => decide (0 < m.impressions)
  | none => false

/-! ### Experiment lifecycle (`database.create_experiment`,
`database.update_experiment_metrics`, `database.complete_experiment`,
`implementation.revert_experiment`, `implementation.implement_title_change`).
The `optimization_experiments` table is a list of rows; page and post
identities are numbers; the content store is a `setTitle` oracle returning
the write's success. -/

/-- The `status` column values of `optimization_experiments`. -/
inductive ExpStatus where
  | active
  | completed
  | reverted
deriving DecidableEq

/-- An `optimization_experiments` row, restricted to the columns the
lifecycle operations read or write (`outcome = none` models the initial
`'pending'` value, `postImpressions = none` an unmeasured experiment). -/
structure Experiment where
  id : ℕ
  pageUrl : ℕ
  oldTitle : String
  newTitle : String
  status : ExpStatus
  outcome : Option Outcome
  postImpressions : Option ℕ
deriving DecidableEq

/-- `database.create_experiment` lines 345-407: INSERT a new row with
status `'active'` and outcome `'pending'`; the fresh rowid is returned. -/
def createExperiment (table : List Experiment) (pageUrl : ℕ)
    (oldTitle newTitle : String) : ℕ × List Experiment :=
  let id := table.length + 1
  (id, table ++ [⟨id, pageUrl, oldTitle, newTitle, ExpStatus.active,
    none, none⟩])

/-- `database.update_experiment_metrics` lines 462-489: UPDATE the post
columns of the row with the given id (no status column touched). -/
def updateExperimentMetrics (table : List Experiment) (id : ℕ)
    (postImpressions : ℕ) : List Experiment :=
  table.map (fun e =>
    if e.id = id then { e with postImpressions := some postImpressions }
    else e)

/-- `database.complete_experiment` lines 492-513: UPDATE status to
`'completed'` and store the outcome for the row with the given id —
unconditionally, with no check of the current status. -/
def completeExperiment (table : List Experiment) (id : ℕ) (outcome : Outcome) :
    List Experiment :=
  table.map (fun e =>
    if e.id = id then
      { e with status := ExpStatus.completed, outcome := some outcome }
    else e)

/-- `implementation.revert_experiment` lines 144-184: SELECT the row by id
(with no status filter), write the old title back through the content
store, and on success UPDATE status to `'reverted'`; returns whether the
revert happened. -/
def revertExperiment (setTitle : ℕ → String → Bool) (table : List Experiment)
    (id : ℕ) : Bool × List Experiment :=
  match table.find? (fun e => e.id == id) with
  | none => (false, table)
  | some e =>
    if setTitle e.pageUrl e.oldTitle then
      (true, table.map (fun e2 =>
        if e2.id = id then { e2 with status := ExpStatus.reverted } else e2))
    else (false, table)

/-- One `seo_changes` row as written by `implement_title_change`. -/
structure SeoChange where
  pageUrl : ℕ
  oldValue : String
  newValue : String
deriving DecidableEq

/-- The record store as touched by `implement_title_change`. -/
structure RecordStore where
  experiments : List Experiment
  seoChanges : List SeoChange
deriving DecidableEq

/-- `implementation.implement_title_change` lines 73-141: resolve the post
id, read the current title, write the new title through the content store;
only on a successful write create the experiment row and log the
`seo_changes` entry; on any failure return `none` with the store
untouched. -/
def implementTitleChange (getPostId : Option ℕ) (getCurrentTitle : ℕ → String)
    (setTitle : ℕ → String → Bool) (st : RecordStore) (pageUrl : ℕ)
    (newTitle : String) : Option ℕ × RecordStore :=
  match getPostId with
  | none => (none, st)
  | some postId =>
    let oldTitle := getCurrentTitle postId
    if setTitle postId newTitle then
      let created := createExperiment st.experiments pageUrl oldTitle newTitle
      (some created.1,
        ⟨created.2, st.seoChanges ++ [⟨pageUrl, oldTitle, newTitle⟩]⟩)
    else (none, st)

end CTRSys

namespace CTRSys

/-- C1: for every experiment, if `post_impressions < 50` the outcome is
`inconclusive` whatever the CTR values; otherwise the outcome is `improved`
iff the guarded percentage CTR change is at least `0.05`, `worsened` iff it
is at most `-0.05`, and `no_change` otherwise; and the two position fields
never influence which outcome is chosen. -/
theorem evaluate_experiment_outcome_spec (e : ExperimentMetrics) :
    (e.postImpressions < 50 → evaluateExperiment e = Outcome.inconclusive) ∧
    (50 ≤ e.postImpressions →
      ((evaluateExperiment e = Outcome.improved ↔
          5 / 100 ≤ ctrChangePct e.preCtr e.postCtr) ∧
       (evaluateExperiment e = Outcome.worsened ↔
          ctrChangePct e.preCtr e.postCtr ≤ -(5 / 100)) ∧
       (evaluateExperiment e = Outcome.noChange ↔
          (ctrChangePct e.preCtr e.postCtr < 5 / 100 ∧
           -(5 / 100) < ctrChangePct e.preCtr e.postCtr)))) ∧
    (∀ p q : ℚ,
      evaluateExperiment { e with prePosition := p, postPosition := q } =
        evaluateExperiment e) := by
  refine ⟨?_, ?_, ?_⟩
  · intro h
    simp only [evaluateExperiment, MIN_POST_CHANGE_IMPRESSIONS, if_pos h]
  · intro h
    have hnot : ¬ e.postImpressions < 50 := not_lt.mpr h
    simp only [evaluateExperiment, MIN_POST_CHANGE_IMPRESSIONS,
      IMPROVEMENT_THRESHOLD, WORSENED_THRESHOLD, if_neg hnot]
    set c := ctrChangePct e.preCtr e.postCtr with hc
    by_cases h1 : (5 : ℚ) / 100 ≤ c
    · have h2 : ¬ c ≤ -(5 / 100) := by
        intro hle
        have : (5 : ℚ) / 100 ≤ -(5 / 100) := le_trans h1 hle
        norm_num at this
      refine ⟨?_, ?_, ?_⟩ <;> simp [if_pos h1, h1, h2, not_lt.mpr h1]
    · by_cases h2 : c ≤ -(5 / 100)
      · refine ⟨?_, ?_, ?_⟩ <;>
          simp [if_neg h1, if_pos h2, h1, h2, not_lt.mpr h2]
      · refine ⟨?_, ?_, ?_⟩ <;>
          simp [if_neg h1, if_neg h2, h1, h2, lt_of_not_le h1, lt_of_not_le h2]
  · intro p q
    simp only [evaluateExperiment, ctrChangePct]

/-- C1 witness: the spec's own boundary example, `pre_ctr = 0.04`,
`post_ctr = 0.038`, a `-5%` change exactly on the inclusive `worsened`
boundary, with enough impressions. -/
theorem evaluate_experiment_outcome_spec_witness :
    evaluateExperiment
      { preCtr := 4/100, postCtr := 38/1000, prePosition := 3,
        postPosition := 3, postImpressions := 100 } = Outcome.worsened := by
  have h := (evaluate_experiment_outcome_spec
    { preCtr := 4/100, postCtr := 38/1000, prePosition := 3,
      postPosition := 3, postImpressions := 100 }).2.1 (by norm_num)
  exact h.2.1.mpr (by norm_num [ctrChangePct])

/-- C8: the cooldown gate passes iff the days since the most recent recorded
change reach 21 (inclusive boundary), and a page with no recorded change is
always eligible. -/
theorem can_optimize_page_spec (now lc : ℤ) :
    canOptimizePage now none = true ∧
    (canOptimizePage now (some lc) = true ↔ 21 ≤ now - lc) := by
  constructor
  · rfl
  · simp [canOptimizePage, getDaysSinceLastChange, MIN_DAYS_BETWEEN_CHANGES]

/-- C8 witness: a page changed exactly 21 days ago is eligible, one changed
20 days ago is not, and an untracked page is eligible. -/
theorem can_optimize_page_spec_witness :
    canOptimizePage 100 (some 79) = true ∧
    canOptimizePage 100 (some 80) = false ∧
    canOptimizePage 100 none = true := by
  refine ⟨(can_optimize_page_spec 100 79).2.mpr (by norm_num), ?_,
    (can_optimize_page_spec 100 80).1⟩
  have h := (can_optimize_page_spec 100 80).2
  by_contra hfalse
  have : canOptimizePage 100 (some 80) = true := by
    revert hfalse
    cases canOptimizePage 100 (some 80) <;> simp
  have := h.mp this
  norm_num at this

/-- Helper: a `filterMap` whose function is defined exactly on the elements
satisfying `p` returns as many elements as `filter p` keeps. -/
lemma length_filterMap_eq_length_filter {α β : Type} (f : α → Option β)
    (p : α → Bool) (h : ∀ a, (f a).isSome = p a) :
    ∀ l : List α, (l.filterMap f).length = (l.filter p).length := by
  intro l
  induction l with
  | nil => rfl
  | cons a l ih =>
    rcases hf : f a with _ | b
    · have hp : p a = false := by rw [← h a, hf]; rfl
      simp [List.filterMap_cons, List.filter_cons, hf, hp, ih]
    · have hp : p a = true := by rw [← h a, hf]; rfl
      simp [List.filterMap_cons, List.filter_cons, hf, hp, ih]

/-- C2: every returned benchmark row comes from a fixed band with at least
one matching sample and carries the impression-weighted CTR
`sum clicks / sum impressions` for that band; every band with a matching
sample yields a row; and the number of rows equals the number of non-empty
bands (empty bands are omitted). -/
theorem calculate_position_benchmarks_spec (pages : List PageSample) :
    (∀ bm ∈ calculatePositionBenchmarks pages,
       (bm.positionMin, bm.positionMax) ∈ positionBands ∧
       bandPages pages (bm.positionMin, bm.positionMax) ≠ [] ∧
       bm.sampleSize = (bandPages pages (bm.positionMin, bm.positionMax)).length ∧
       bm.expectedCtr =
         ((bandPages pages (bm.positionMin, bm.positionMax)).map
             PageSample.clicks).sum /
         (((bandPages pages (bm.positionMin, bm.positionMax)).map
             PageSample.impressions).sum : ℚ)) ∧
    (∀ b ∈ positionBands, bandPages pages b ≠ [] →
       ∃ bm ∈ calculatePositionBenchmarks pages,
         bm.positionMin = b.1 ∧ bm.positionMax = b.2) ∧
    (calculatePositionBenchmarks pages).length =
      (positionBands.filter (fun b => !(bandPages pages b).isEmpty)).length := by
  refine ⟨?_, ?_, ?_⟩
  · intro bm hbm
    rw [calculatePositionBenchmarks, List.mem_filterMap] at hbm
    obtain ⟨b, hb, hf⟩ := hbm
    by_cases he : (bandPages pages b).isEmpty
    · simp [he] at hf
    · simp only [he, if_neg, Bool.false_eq_true, not_false_iff,
        Option.some.injEq] at hf
      subst hf
      refine ⟨hb, by simpa [List.isEmpty_iff] using he, rfl, ?_⟩
      by_cases hi : 0 < ((bandPages pages b).map PageSample.impressions).sum
      · simp [hi]
      · have hz : ((bandPages pages b).map PageSample.impressions).sum = 0 :=
          Nat.eq_zero_of_not_pos hi
        simp [hi, hz]
  · intro b hb hne
    have he : (bandPages pages b).isEmpty = false := by
      rcases h : (bandPages pages b).isEmpty
      · rfl
      · exact absurd (List.isEmpty_iff.mp h) hne
    refine ⟨⟨b.1, b.2,
      (if 0 < ((bandPages pages b).map PageSample.impressions).sum
       then ((((bandPages pages b).map PageSample.clicks).sum : ℕ) : ℚ) /
            ((((bandPages pages b).map PageSample.impressions).sum : ℕ) : ℚ)
       else 0),
      (bandPages pages b).length⟩, ?_, rfl, rfl⟩
    rw [calculatePositionBenchmarks]
    exact List.mem_filterMap.mpr ⟨b, hb, by simp [he]⟩
  · rw [calculatePositionBenchmarks]
    refine length_filterMap_eq_length_filter _ _ ?_ positionBands
    intro b
    rcases he : (bandPages pages b).isEmpty <;> simp [he]

/-- C2 witness: the spec's contrasting pair, samples (position 1,
100 impressions, 20 clicks) and (position 1, 900 impressions, 9 clicks):
the 1.0-1.5 band gets a row, and its expected CTR is 29/1000 = 0.029, not
the arithmetic mean 0.105 of the per-sample CTRs. -/
theorem calculate_position_benchmarks_spec_witness :
    (∃ bm ∈ calculatePositionBenchmarks [⟨1, 100, 20⟩, ⟨1, 900, 9⟩],
       bm.positionMin = 1 ∧ bm.positionMax = 3/2) ∧
    (calculatePositionBenchmarks [⟨1, 100, 20⟩, ⟨1, 900, 9⟩]).map
        Benchmark.expectedCtr = [29/1000] ∧
    (29 : ℚ)/1000 ≠ ((20:ℚ)/100 + (9:ℚ)/900) / 2 := by
  have hband : bandPages [⟨1, 100, 20⟩, ⟨1, 900, 9⟩] (1, 3/2) =
      [⟨1, 100, 20⟩, ⟨1, 900, 9⟩] := by
    norm_num [bandPages, List.filter_cons]
  have e2 : bandPages [⟨1, 100, 20⟩, ⟨1, 900, 9⟩] (3/2, 5/2) = [] := by
    norm_num [bandPages, List.filter_cons]
  have e3 : bandPages [⟨1, 100, 20⟩, ⟨1, 900, 9⟩] (5/2, 7/2) = [] := by
    norm_num [bandPages, List.filter_cons]
  have e4 : bandPages [⟨1, 100, 20⟩, ⟨1, 900, 9⟩] (7/2, 11/2) = [] := by
    norm_num [bandPages, List.filter_cons]
  have e5 : bandPages [⟨1, 100, 20⟩, ⟨1, 900, 9⟩] (11/2, 21/2) = [] := by
    norm_num [bandPages, List.filter_cons]
  have e6 : bandPages [⟨1, 100, 20⟩, ⟨1, 900, 9⟩] (21/2, 41/2) = [] := by
    norm_num [bandPages, List.filter_cons]
  have e7 : bandPages [⟨1, 100, 20⟩, ⟨1, 900, 9⟩] (41/2, 100) = [] := by
    norm_num [bandPages, List.filter_cons]
  refine ⟨(calculate_position_benchmarks_spec
      [⟨1, 100, 20⟩, ⟨1, 900, 9⟩]).2.1 (1, 3/2)
      (by norm_num [positionBands]) (by rw [hband]; simp), ?_, by norm_num⟩
  rw [calculatePositionBenchmarks, positionBands]
  simp only [List.filterMap_cons, hband, e2, e3, e4, e5, e6, e7]
  norm_num

/-! Lemmas about the stable descending sort. -/

lemma insertDescBy_perm {α : Type} (k : α → ℚ) (x : α) (l : List α) :
    (insertDescBy k x l).Perm (x :: l) := by
  induction l with
  | nil => exact List.Perm.refl _
  | cons y ys ih =>
    by_cases h : k y < k x
    · simp [insertDescBy, h]
    · simp only [insertDescBy, if_neg h]
      exact (ih.cons y).trans (List.Perm.swap x y ys)

lemma foldl_insertDescBy_perm {α : Type} (k : α → ℚ) :
    ∀ (l acc : List α),
      (l.foldl (fun acc x => insertDescBy k x acc) acc).Perm (l ++ acc) := by
  intro l
  induction l with
  | nil => intro acc; simp
  | cons x xs ih =>
    intro acc
    simp only [List.foldl_cons]
    refine (ih (insertDescBy k x acc)).trans ?_
    refine (List.Perm.append_left xs (insertDescBy_perm k x acc)).trans ?_
    simp only [List.cons_append]
    exact List.perm_middle

lemma sortDescBy_perm {α : Type} (k : α → ℚ) (l : List α) :
    (sortDescBy k l).Perm l := by
  simpa [sortDescBy] using foldl_insertDescBy_perm k l []

lemma insertDescBy_pairwise {α : Type} (k : α → ℚ) (x : α) (l : List α)
    (h : List.Pairwise (fun a b => k b ≤ k a) l) :
    List.Pairwise (fun a b => k b ≤ k a) (insertDescBy k x l) := by
  induction l with
  | nil => simp [insertDescBy]
  | cons y ys ih =>
    obtain ⟨hy, hys⟩ := List.pairwise_cons.mp h
    by_cases hc : k y < k x
    · simp only [insertDescBy, if_pos hc]
      refine List.pairwise_cons.mpr ⟨?_, h⟩
      intro z hz
      rcases List.mem_cons.mp hz with rfl | hzys
      · exact le_of_lt hc
      · exact le_trans (hy z hzys) (le_of_lt hc)
    · simp only [insertDescBy, if_neg hc]
      refine List.pairwise_cons.mpr ⟨?_, ih hys⟩
      intro z hz
      rcases List.mem_cons.mp ((insertDescBy_perm k x ys).mem_iff.mp hz) with
        rfl | hzys
      · exact le_of_not_lt hc
      · exact hy z hzys

lemma sortDescBy_pairwise {α : Type} (k : α → ℚ) (l : List α) :
    List.Pairwise (fun a b => k b ≤ k a) (sortDescBy k l) := by
  suffices h : ∀ (l acc : List α),
      List.Pairwise (fun a b => k b ≤ k a) acc →
      List.Pairwise (fun a b => k b ≤ k a)
        (l.foldl (fun acc x => insertDescBy k x acc) acc) by
    exact h l [] List.Pairwise.nil
  intro l
  induction l with
  | nil => intro acc hacc; exact hacc
  | cons x xs ih =>
    intro acc hacc
    exact ih (insertDescBy k x acc) (insertDescBy_pairwise k x acc hacc)

lemma sortDescBy_append_singleton {α : Type} (k : α → ℚ) (l : List α) (x : α) :
    sortDescBy k (l ++ [x]) = insertDescBy k x (sortDescBy k l) := by
  simp [sortDescBy, List.foldl_append]

lemma head?_insertDescBy {α : Type} (k : α → ℚ) (x y : α) (ys : List α) :
    (insertDescBy k x (y :: ys)).head? =
      some (if k y < k x then x else y) := by
  by_cases h : k y < k x <;> simp [insertDescBy, h]

lemma firstMaxBy_append {α : Type} (k : α → ℚ) (x : α) (l : List α) (y : α) :
    firstMaxBy k x (l ++ [y]) =
      if k (firstMaxBy k x l) < k y then y else firstMaxBy k x l := by
  simp [firstMaxBy, List.foldl_append]

lemma head?_sortDescBy {α : Type} (k : α → ℚ) (x : α) (l : List α) :
    (sortDescBy k (x :: l)).head? = some (firstMaxBy k x l) := by
  induction l using List.reverseRecOn with
  | nil => simp [sortDescBy, insertDescBy, firstMaxBy]
  | append_singleton l y ih =>
    have hx : x :: (l ++ [y]) = (x :: l) ++ [y] := by simp
    rw [hx, sortDescBy_append_singleton, firstMaxBy_append]
    rcases hs : sortDescBy k (x :: l) with _ | ⟨a, rest⟩
    · exfalso
      have := (sortDescBy_perm k (x :: l)).length_eq
      rw [hs] at this
      simp at this
    · rw [hs] at ih
      rw [List.head?_cons, Option.some.injEq] at ih
      rw [head?_insertDescBy, ih]

lemma le_firstMaxBy_seed {α : Type} (k : α → ℚ) :
    ∀ (l : List α) (x : α), k x ≤ k (firstMaxBy k x l) := by
  intro l
  induction l with
  | nil => intro x; exact le_refl _
  | cons y ys ih =>
    intro x
    have hunf : firstMaxBy k x (y :: ys) =
        firstMaxBy k (if k x < k y then y else x) ys := rfl
    rw [hunf]
    by_cases hc : k x < k y
    · simpa [hc] using le_trans (le_of_lt hc) (ih y)
    · simpa [hc] using ih x

lemma firstMaxBy_decomp {α : Type} (k : α → ℚ) :
    ∀ (l : List α) (x : α), ∃ l1 l2,
      x :: l = l1 ++ firstMaxBy k x l :: l2 ∧
      ∀ z ∈ l1, k z < k (firstMaxBy k x l) := by
  intro l
  induction l with
  | nil => intro x; exact ⟨[], [], rfl, by simp⟩
  | cons y ys ih =>
    intro x
    have hunf : firstMaxBy k x (y :: ys) =
        firstMaxBy k (if k x < k y then y else x) ys := rfl
    by_cases hc : k x < k y
    · obtain ⟨l1, l2, heq, hlt⟩ := ih y
      rw [hunf, if_pos hc]
      refine ⟨x :: l1, l2, ?_, ?_⟩
      · simpa using congrArg (List.cons x) heq
      · intro z hz
        rcases List.mem_cons.mp hz with rfl | hz1
        · exact lt_of_lt_of_le hc (le_firstMaxBy_seed k ys y)
        · exact hlt z hz1
    · obtain ⟨l1, l2, heq, hlt⟩ := ih x
      rw [hunf, if_neg hc]
      cases l1 with
      | nil =>
        simp only [List.nil_append] at heq
        have hfm : firstMaxBy k x ys = x := (List.cons.injEq _ _ _ _ ▸ heq).1.symm
        refine ⟨[], y :: ys, ?_, by simp⟩
        simp [hfm]
      | cons a l1t =>
        simp only [List.cons_append, List.cons.injEq] at heq
        obtain ⟨rfl, hys⟩ := heq
        refine ⟨x :: y :: l1t, l2, ?_, ?_⟩
        · simpa using congrArg (fun t => x :: y :: t) hys
        · intro z hz
          have hxlt : k x < k (firstMaxBy k x ys) := hlt x (by simp)
          rcases List.mem_cons.mp hz with rfl | hz1
          · exact hxlt
          · rcases List.mem_cons.mp hz1 with rfl | hz2
            · exact lt_of_le_of_lt (le_of_not_lt hc) hxlt
            · exact hlt z (by simp [hz2])

lemma firstMaxBy_mem {α : Type} (k : α → ℚ) (l : List α) (x : α) :
    firstMaxBy k x l ∈ x :: l := by
  obtain ⟨l1, l2, heq, _⟩ := firstMaxBy_decomp k l x
  rw [heq]
  exact List.mem_append.mpr (Or.inr (List.mem_cons_self _ _))

lemma firstMaxBy_ge {α : Type} (k : α → ℚ) :
    ∀ (l : List α) (x : α), ∀ z ∈ x :: l, k z ≤ k (firstMaxBy k x l) := by
  intro l
  induction l with
  | nil => intro x z hz; rw [List.mem_singleton] at hz; subst hz; exact le_refl _
  | cons y ys ih =>
    intro x z hz
    have hunf : firstMaxBy k x (y :: ys) =
        firstMaxBy k (if k x < k y then y else x) ys := rfl
    rw [hunf]
    rcases List.mem_cons.mp hz with rfl | hz1
    · by_cases hc : k z < k y
      · simpa [hc] using le_trans (le_of_lt hc) (le_firstMaxBy_seed k ys y)
      · simpa [hc] using le_firstMaxBy_seed k ys z
    · rcases List.mem_cons.mp hz1 with rfl | hz2
      · by_cases hc : k x < k z
        · simpa [hc] using le_firstMaxBy_seed k ys z
        · simpa [hc] using
            le_trans (le_of_not_lt hc) (le_firstMaxBy_seed k ys x)
      · by_cases hc : k x < k y
        · simpa [hc] using ih y z (by simp [hz2])
        · simpa [hc] using ih x z (by simp [hz2])

/-- C3: every returned row belongs to the review, is eligible, and meets the
gap and impact thresholds; rows come out in descending impact order; the
result holds `min 50 q` rows where `q` is the number of qualifying rows; when
at most 50 rows qualify the result is exactly the qualifying rows; and every
qualifying row left out ranks at or below every returned row (the cap keeps
the 50 highest-impact qualifiers, it is not a fixed top-N). -/
theorem get_top_opportunities_spec (table : List Snapshot) (reviewId : ℕ) :
    (∀ s ∈ getTopOpportunities table reviewId,
        s.reviewId = reviewId ∧ s.eligible = true ∧
        5/100 ≤ s.ctrGap ∧ 5 ≤ s.impactScore) ∧
    List.Pairwise (fun a b => b.impactScore ≤ a.impactScore)
      (getTopOpportunities table reviewId) ∧
    (getTopOpportunities table reviewId).length =
      min 50 (table.filter (opportunityFilter reviewId (5/100) 5)).length ∧
    ((table.filter (opportunityFilter reviewId (5/100) 5)).length ≤ 50 →
      (getTopOpportunities table reviewId).Perm
        (table.filter (opportunityFilter reviewId (5/100) 5))) ∧
    (∀ x ∈ getTopOpportunities table reviewId,
      ∀ y ∈ (sortDescBy Snapshot.impactScore
          (table.filter (opportunityFilter reviewId (5/100) 5))).drop 50,
        y.impactScore ≤ x.impactScore) := by
  have hdef : getTopOpportunities table reviewId =
      (sortDescBy Snapshot.impactScore
        (table.filter (opportunityFilter reviewId (5/100) 5))).take 50 := rfl
  refine ⟨?_, ?_, ?_, ?_, ?_⟩
  · intro s hs
    rw [hdef] at hs
    have h1 : s ∈ sortDescBy Snapshot.impactScore
        (table.filter (opportunityFilter reviewId (5/100) 5)) :=
      List.mem_of_mem_take hs
    have h2 := (sortDescBy_perm Snapshot.impactScore _).mem_iff.mp h1
    have hp := (List.mem_filter.mp h2).2
    simp only [opportunityFilter, Bool.and_eq_true, decide_eq_true_eq] at hp
    exact ⟨hp.1.1.1, hp.1.1.2, hp.1.2, hp.2⟩
  · rw [hdef]
    exact (sortDescBy_pairwise Snapshot.impactScore _).sublist
      (List.take_sublist 50 _)
  · rw [hdef, List.length_take, (sortDescBy_perm Snapshot.impactScore _).length_eq]
  · intro h
    rw [hdef, List.take_of_length_le]
    · exact sortDescBy_perm Snapshot.impactScore _
    · rw [(sortDescBy_perm Snapshot.impactScore _).length_eq]
      exact h
  · intro x hx y hy
    have hpw := sortDescBy_pairwise Snapshot.impactScore
      (table.filter (opportunityFilter reviewId (5/100) 5))
    rw [← List.take_append_drop 50 (sortDescBy Snapshot.impactScore
      (table.filter (opportunityFilter reviewId (5/100) 5)))] at hpw
    exact (List.pairwise_append.mp hpw).2.2 x (hdef ▸ hx) y hy

/-- C3 witness: a review with four stored rows, of which one fails the
eligibility gate, one belongs to another review, and two qualify (one
exactly on the 0.05 gap boundary); the result is exactly the two
qualifiers. -/
theorem get_top_opportunities_spec_witness :
    (getTopOpportunities
        [⟨3, 1, true, 5/100, 10⟩, ⟨2, 1, false, 6/100, 60⟩,
         ⟨1, 1, true, 6/100, 60⟩, ⟨4, 2, true, 6/100, 60⟩] 1).Perm
      [⟨3, 1, true, 5/100, 10⟩, ⟨1, 1, true, 6/100, 60⟩] := by
  have hfilter : List.filter (opportunityFilter 1 (5/100) 5)
      [⟨3, 1, true, 5/100, 10⟩, ⟨2, 1, false, 6/100, 60⟩,
       ⟨1, 1, true, 6/100, 60⟩, ⟨4, 2, true, 6/100, 60⟩] =
      [⟨3, 1, true, 5/100, 10⟩, ⟨1, 1, true, 6/100, 60⟩] := by
    norm_num [opportunityFilter, List.filter_cons]
  have h := (get_top_opportunities_spec
      [⟨3, 1, true, 5/100, 10⟩, ⟨2, 1, false, 6/100, 60⟩,
       ⟨1, 1, true, 6/100, 60⟩, ⟨4, 2, true, 6/100, 60⟩] 1).2.2.2.1
    (by rw [hfilter]; norm_num)
  rw [hfilter] at h
  exact h

/-- Helper: when idea types are pairwise distinct, looking the type up from
the back of the performance list (dict insertion order, last write wins)
agrees with looking it up from the front. -/
lemma find?_reverse_eq_find? (perf : List IdeaTypePerformance) (t : String)
    (hnd : (perf.map IdeaTypePerformance.ideaType).Nodup) :
    perf.reverse.find? (fun p => p.ideaType == t) =
      perf.find? (fun p => p.ideaType == t) := by
  induction perf with
  | nil => rfl
  | cons p ps ih =>
    rw [List.map_cons, List.nodup_cons] at hnd
    rw [List.reverse_cons, List.find?_append]
    by_cases hm : (p.ideaType == t) = true
    · have ht : p.ideaType = t := by simpa using hm
      have hnone : ps.reverse.find? (fun q => q.ideaType == t) = none := by
        rw [List.find?_eq_none]
        intro q hq hqt
        have hqe : q.ideaType = t := by simpa using hqt
        exact hnd.1 (List.mem_map.mpr
          ⟨q, List.mem_reverse.mp hq, by rw [hqe, ht]⟩)
      rw [hnone,
        @List.find?_cons_of_pos _ (fun q => q.ideaType == t) p [] hm,
        @List.find?_cons_of_pos _ (fun q => q.ideaType == t) p ps hm,
        Option.none_or]
    · have hm' : ¬ (p.ideaType == t) = true := hm
      rw [@List.find?_cons_of_neg _ (fun q => q.ideaType == t) p [] hm',
        List.find?_nil, Option.or_none, ih hnd.2,
        @List.find?_cons_of_neg _ (fun q => q.ideaType == t) p ps hm']

/-- Helper: the source's sequential score updates equal the claim's additive
formula, provided the performance rows carry distinct idea types (the shape
`get_idea_type_performance` produces via `GROUP BY idea_type`). -/
lemma scoreIdea_eq_specIdeaScore (perf : List IdeaTypePerformance)
    (recentTypes : List String) (idea : TitleIdea)
    (hnd : (perf.map IdeaTypePerformance.ideaType).Nodup) :
    scoreIdea perf recentTypes idea = specIdeaScore perf recentTypes idea := by
  unfold scoreIdea specIdeaScore typeScore
  rw [find?_reverse_eq_find? perf idea.ideaType hnd]
  rcases List.find? (fun p => p.ideaType == idea.ideaType) perf with _ | p <;>
    by_cases h1 : idea.ideaType ∈ recentTypes <;>
    by_cases h2 : 55 < idea.charCount <;>
    simp [h1, h2]

/-- C10: on a non-empty candidate list (and performance rows with distinct
idea types), the selection returns an idea that is in the list, attains the
maximal score, and is the first listed among the maximal ones; each idea's
score is the claim's formula: the type's `success_rate * min(total/10, 1)`
(50 for a type with no recorded history), +10 when the type misses the 3
most recent experiments, −5 when the character count exceeds 55. -/
theorem select_best_idea_spec (ideas : List TitleIdea)
    (perf : List IdeaTypePerformance) (history : List String)
    (hne : ideas ≠ [])
    (hnd : (perf.map IdeaTypePerformance.ideaType).Nodup) :
    ∃ best, selectBestIdea ideas perf history = some best ∧ best ∈ ideas ∧
      (∀ i ∈ ideas, scoreIdea perf (history.take 3) i ≤
        scoreIdea perf (history.take 3) best) ∧
      (∃ l1 l2, ideas = l1 ++ best :: l2 ∧
        ∀ z ∈ l1, scoreIdea perf (history.take 3) z <
          scoreIdea perf (history.take 3) best) ∧
      (∀ i : TitleIdea, scoreIdea perf (history.take 3) i =
        specIdeaScore perf (history.take 3) i) := by
  rcases ideas with _ | ⟨x, xs⟩
  · exact absurd rfl hne
  · refine ⟨firstMaxBy (scoreIdea perf (history.take 3)) x xs, ?_, ?_, ?_, ?_, ?_⟩
    · exact head?_sortDescBy (scoreIdea perf (history.take 3)) x xs
    · exact firstMaxBy_mem (scoreIdea perf (history.take 3)) xs x
    · exact firstMaxBy_ge (scoreIdea perf (history.take 3)) xs x
    · exact firstMaxBy_decomp (scoreIdea perf (history.take 3)) xs x
    · intro i
      exact scoreIdea_eq_specIdeaScore perf (history.take 3) i hnd

/-- C10 witness: two candidates; "curiosity" has no history (score 50, no
bonus since it was just tried), "how_to" scores 80 * 0.5 = 40, +10
diversity, −5 for 60 characters = 45; the selection picks a maximal-score
idea from the list. -/
theorem select_best_idea_spec_witness :
    ∃ best, selectBestIdea
        [⟨"curiosity", 40⟩, ⟨"how_to", 60⟩]
        [⟨"how_to", 80, 5⟩] ["curiosity"] = some best ∧
      best ∈ [(⟨"curiosity", 40⟩ : TitleIdea), ⟨"how_to", 60⟩] := by
  obtain ⟨best, h1, h2, _⟩ := select_best_idea_spec
    [⟨"curiosity", 40⟩, ⟨"how_to", 60⟩] [⟨"how_to", 80, 5⟩]
    ["curiosity"] (by simp) (by simp)
  exact ⟨best, h1, h2⟩

/-! Lemmas about the first-seen back-scan. -/

lemma chunkHasData_shift (query : ℤ → ℤ → Option Metrics) (e0 : ℤ) (i : ℕ) :
    chunkHasData query (e0 - 30) i = chunkHasData query e0 (i + 1) := by
  unfold chunkHasData
  have h1 : e0 - 30 - 30 * ((i : ℤ) + 1) = e0 - 30 * (((i + 1 : ℕ) : ℤ) + 1) := by
    push_cast
    ring
  have h2 : e0 - 30 - 30 * (i : ℤ) = e0 - 30 * ((i + 1 : ℕ) : ℤ) := by
    push_cast
    ring
  rw [h1, h2]

lemma firstSeenLoop_spec (query : ℤ → ℤ → Option Metrics) :
    ∀ (n k : ℕ) (curEnd : ℤ) (earliest : Option ℤ), k ≤ n →
      (∀ i, i < k → chunkHasData query curEnd i = true) →
      (k = n ∨ chunkHasData query curEnd k = false) →
      firstSeenLoop query n curEnd earliest =
        if k = 0 then earliest else some (curEnd - 30 * ((k : ℤ) - 1)) := by
  intro n
  induction n with
  | zero =>
    intro k curEnd earliest hk _ _
    have hk0 : k = 0 := Nat.le_zero.mp hk
    subst hk0
    simp [firstSeenLoop]
  | succ n ih =>
    intro k curEnd earliest hk hdata hstop
    cases k with
    | zero =>
      have h0 : chunkHasData query curEnd 0 = false := by
        rcases hstop with h | h
        · exact absurd h.symm (Nat.succ_ne_zero n)
        · exact h
      unfold chunkHasData at h0
      norm_num at h0
      rcases hq : query (curEnd - 30) curEnd with _ | m
      · simp [firstSeenLoop, hq]
      · rw [hq] at h0
        have him : ¬ 0 < m.impressions := by simpa using h0
        simp [firstSeenLoop, hq, him]
    | succ j =>
      have h0 : chunkHasData query curEnd 0 = true := hdata 0 (Nat.succ_pos j)
      unfold chunkHasData at h0
      norm_num at h0
      rcases hq : query (curEnd - 30) curEnd with _ | m
      · rw [hq] at h0
        simp at h0
      · rw [hq] at h0
        have him : 0 < m.impressions := by simpa using h0
        have hrec : firstSeenLoop query (n + 1) curEnd earliest =
            firstSeenLoop query n (curEnd - 30) (some curEnd) := by
          simp [firstSeenLoop, hq, him]
        rw [hrec]
        have hdata' : ∀ i, i < j → chunkHasData query (curEnd - 30) i = true := by
          intro i hi
          rw [chunkHasData_shift]
          exact hdata (i + 1) (Nat.succ_lt_succ hi)
        have hstop' : j = n ∨ chunkHasData query (curEnd - 30) j = false := by
          rcases hstop with h | h
          · exact Or.inl (Nat.succ_injective h)
          · rw [chunkHasData_shift]
            exact Or.inr h
        rw [ih j (curEnd - 30) (some curEnd) (Nat.succ_le_succ_iff.mp hk)
          hdata' hstop']
        cases j with
        | zero => norm_num
        | succ j' =>
          rw [if_neg (Nat.succ_ne_zero j'), if_neg (Nat.succ_ne_zero (j' + 1))]
          rw [Option.some.injEq]
          push_cast
          ring

/-- C7: the first-seen scan starts at `now - 3`, walks backward in 30-day
chunks, continues while each chunk shows a row with nonzero impressions,
stops at the first all-zero chunk or after 16 chunks (the 16-month
lookback), and when `k ≥ 1` leading chunks have data it returns the end
boundary of the earliest of them, `now - 3 - 30 * (k - 1)` (and `none` when
even the first chunk is empty). -/
theorem get_page_first_seen_date_spec (query : ℤ → ℤ → Option Metrics)
    (now : ℤ) (k : ℕ) (hk : k ≤ 16)
    (hdata : ∀ i, i < k → chunkHasData query (now - 3) i = true)
    (hstop : k = 16 ∨ chunkHasData query (now - 3) k = false) :
    getPageFirstSeenDate query now =
      if k = 0 then none else some (now - 3 - 30 * ((k : ℤ) - 1)) :=
  firstSeenLoop_spec query 16 k (now - 3) none hk hdata hstop

/-- C7 witness: a provider with data in exactly the two most recent chunks
(now = 0, so the scan boundary is −3 and the chunks are (−33, −3) and
(−63, −33)): the scan returns −33, the end boundary of the earliest chunk
with data. -/
theorem get_page_first_seen_date_spec_witness :
    getPageFirstSeenDate
      (fun s _ => if -63 ≤ s then some ⟨5, 1, 0, 7⟩ else none) 0 =
      some (-33) := by
  have h := get_page_first_seen_date_spec
    (fun s _ => if -63 ≤ s then some ⟨5, 1, 0, 7⟩ else none) 0 2
    (by norm_num) (by decide) (Or.inr (by decide))
  rw [h]
  norm_num

/-- C5 counterexample: a page whose prior change was 150 days before
`now = 200`.  The adjusted window is valid but clamped: it is
(107, 197), not starting the day after the change (51); and the provider
returns no row for the adjusted window (0 impressions, below the
100-impression floor), yet the page is scored with the loop's current
window instead of being skipped — refuting the claim's "skipped in exactly
two cases". -/
theorem page_skip_conditions_counterexample :
    (getValidDateRange 200 (some 50) 90 = some (107, 197) ∧ (107 : ℤ) ≠ 51) ∧
    ¬ (((analyzePageStep (fun _ _ => none) 200 (some 50)
          ⟨200, 10, 0, 5⟩ 7 197).1 = PageAction.skipped) ↔
        (getValidDateRange 200 (some 50) 90 = none ∨
          (Option.elim ((fun _ _ => (none : Option Metrics)) (107 : ℤ)
            (197 : ℤ)) 0 Metrics.impressions) < 100)) := by
  decide

/-- C5 amended: for a page with a recorded prior change the adjusted window
ends at `now - 3` and starts the day after the change, but never earlier
than 90 days before the end (clamped); the window is invalid (`none`)
exactly when the day after the change does not precede `now - 3`; and the
page is skipped exactly when the window is invalid, or the provider returns
a row for the adjusted window whose impressions are below the
100-impression floor — when the provider returns no row at all the page is
not skipped but scored with the loop's current window. -/
theorem page_skip_conditions_amended (query : ℤ → ℤ → Option Metrics)
    (now lc : ℤ) (page : Metrics) (curStart curEnd : ℤ) :
    (getValidDateRange now (some lc) 90 = none ↔ now - 3 ≤ lc + 1) ∧
    (lc + 1 < now - 3 →
      getValidDateRange now (some lc) 90 =
        some (max (lc + 1) (now - 3 - 90), now - 3)) ∧
    (getValidDateRange now (some lc) 90 = none →
      (analyzePageStep query now (some lc) page curStart curEnd).1 =
        PageAction.skipped) ∧
    (∀ adjStart adjEnd,
      getValidDateRange now (some lc) 90 = some (adjStart, adjEnd) →
      ((analyzePageStep query now (some lc) page curStart curEnd).1 =
          PageAction.skipped ↔
        ∃ m, query adjStart adjEnd = some m ∧ m.impressions < 100)) := by
  refine ⟨?_, ?_, ?_, ?_⟩
  · by_cases h : now - 3 ≤ lc + 1 <;> simp [getValidDateRange, h]
  · intro h
    have h' : ¬ (now - 3 ≤ lc + 1) := not_le.mpr h
    by_cases hc : lc + 1 < now - 3 - 90
    · simp [getValidDateRange, h', hc, max_eq_right (le_of_lt hc)]
    · simp [getValidDateRange, h', hc, max_eq_left (not_lt.mp hc)]
  · intro h
    simp [analyzePageStep, h]
  · intro adjStart adjEnd h
    rcases hq : query adjStart adjEnd with _ | m
    · simp [analyzePageStep, h, hq]
    · by_cases hi : MIN_IMPRESSIONS_FOR_ANALYSIS ≤ m.impressions
      · simp only [analyzePageStep, h, hq, if_pos hi]
        constructor
        · intro hcontra
          exact absurd hcontra (by simp)
        · rintro ⟨m', hm', hlt⟩
          rw [Option.some.injEq] at hm'
          subst hm'
          exact absurd hlt (not_lt.mpr hi)
      · have him : m.impressions < 100 := not_le.mp hi
        have hstep : (analyzePageStep query now (some lc) page
            curStart curEnd).1 = PageAction.skipped := by
          simp [analyzePageStep, h, hq, hi]
        rw [hstep]
        exact iff_of_true rfl ⟨m, rfl, him⟩

/-- C5 amended witness: same timing as the counterexample, but the provider
returns a row with 40 impressions for the adjusted window — below the
floor, so the page is skipped. -/
theorem page_skip_conditions_amended_witness :
    (analyzePageStep (fun _ _ => some ⟨40, 2, 0, 5⟩) 200 (some 50)
        ⟨200, 10, 0, 5⟩ 7 197).1 = PageAction.skipped := by
  have h := (page_skip_conditions_amended (fun _ _ => some ⟨40, 2, 0, 5⟩)
    200 50 ⟨200, 10, 0, 5⟩ 7 197).2.2.2 107 197 (by decide)
  exact h.mpr ⟨⟨40, 2, 0, 5⟩, rfl, by decide⟩

/-- C6 (code bug): with `now = 100` the full trailing window is (7, 97).
Page 1 had a change on day 80, so its window is adjusted to (81, 97) and
the loop's `start_date`/`end_date` variables are overwritten; page 2 has no
recorded change, yet its stored snapshot carries page 1's adjusted window
(81, 97) instead of the full trailing window — the loop leaks one page's
adjusted dates into later pages' stored snapshots. -/
theorem analyze_all_pages_window_leak :
    analyzeAllPages
        (fun u _ _ => if u = 1 then some ⟨150, 10, 0, 5⟩ else none)
        (fun u => if u = 1 then some 80 else none)
        100
        [⟨1, ⟨500, 30, 0, 4⟩⟩, ⟨2, ⟨300, 20, 0, 6⟩⟩] =
      [⟨1, 81, 97, ⟨150, 10, 0, 5⟩⟩, ⟨2, 81, 97, ⟨300, 20, 0, 6⟩⟩] ∧
    getValidDateRange 100 none 90 = some (7, 97) ∧
    (81 : ℤ) ≠ 7 := by
  decide

/-- C4 counterexample: a table holding one completed experiment; reverting
it by id succeeds (the content store accepts the write) and rewrites its
status to `'reverted'` — `'completed'` is not terminal and revert does not
require `'active'`. -/
theorem revert_completed_experiment_counterexample :
    revertExperiment (fun _ _ => true)
        [⟨1, 5, "Old", "New", ExpStatus.completed, some Outcome.improved,
          some 80⟩] 1 =
      (true, [⟨1, 5, "Old", "New", ExpStatus.reverted, some Outcome.improved,
          some 80⟩]) ∧
    ExpStatus.reverted ≠ ExpStatus.completed := by
  decide

/-- C4 amended: create and update-metrics never change an existing row's
status; but complete and revert apply their status write unconditionally by
id: complete sets `'completed'` whatever the current status, and revert
succeeds exactly when a row with the id exists and the title write
succeeds — regardless of that row's status, including `'completed'` and
`'reverted'` — in which case it sets `'reverted'`. -/
theorem experiment_status_transitions_amended (table : List Experiment)
    (id : ℕ) (postImpr : ℕ) (o : Outcome) (setTitle : ℕ → String → Bool) :
    (∀ p ot nt, ∀ e ∈ table, e ∈ (createExperiment table p ot nt).2) ∧
    ((updateExperimentMetrics table id postImpr).map Experiment.status =
      table.map Experiment.status) ∧
    (∀ e ∈ completeExperiment table id o,
      (e.id = id → e.status = ExpStatus.completed) ∧
      (e.id ≠ id → e ∈ table)) ∧
    ((revertExperiment setTitle table id).1 = true →
      ∀ e ∈ (revertExperiment setTitle table id).2,
        e.id = id → e.status = ExpStatus.reverted) ∧
    ((revertExperiment setTitle table id).1 = true ↔
      ∃ e, table.find? (fun e2 => e2.id == id) = some e ∧
        setTitle e.pageUrl e.oldTitle = true) := by
  refine ⟨?_, ?_, ?_, ?_, ?_⟩
  · intro p ot nt e he
    exact List.mem_append_left _ he
  · rw [updateExperimentMetrics, List.map_map]
    refine List.map_congr_left ?_
    intro e _
    by_cases h : e.id = id <;> simp [h]
  · intro e he
    rw [completeExperiment] at he
    obtain ⟨e0, he0, heq⟩ := List.mem_map.mp he
    by_cases h : e0.id = id
    · rw [if_pos h] at heq
      subst heq
      exact ⟨fun _ => rfl, fun hne => absurd h hne⟩
    · rw [if_neg h] at heq
      subst heq
      exact ⟨fun hid => absurd hid h, fun _ => he0⟩
  · intro hs e he hid
    rcases hf : table.find? (fun e2 => e2.id == id) with _ | e0
    · simp [revertExperiment, hf] at hs
    · by_cases hw : setTitle e0.pageUrl e0.oldTitle = true
      · simp only [revertExperiment, hf, hw, if_true] at he
        obtain ⟨e1, he1, heq⟩ := List.mem_map.mp he
        by_cases h : e1.id = id
        · rw [if_pos h] at heq
          subst heq
          rfl
        · rw [if_neg h] at heq
          subst heq
          exact absurd hid h
      · have hw' : setTitle e0.pageUrl e0.oldTitle = false := by
          revert hw
          cases setTitle e0.pageUrl e0.oldTitle <;> simp
        simp [revertExperiment, hf, hw'] at hs
  · rcases hf : table.find? (fun e2 => e2.id == id) with _ | e0
    · simp [revertExperiment, hf]
    · by_cases hw : setTitle e0.pageUrl e0.oldTitle = true
      · have hres : (revertExperiment setTitle table id).1 = true := by
          simp [revertExperiment, hf, hw]
        exact iff_of_true hres ⟨e0, hf, hw⟩
      · have hw' : setTitle e0.pageUrl e0.oldTitle = false := by
          revert hw
          cases setTitle e0.pageUrl e0.oldTitle <;> simp
        constructor
        · intro h
          simp [revertExperiment, hf, hw'] at h
        · rintro ⟨e1, he1, hw1⟩
          rw [hf, Option.some.injEq] at he1
          subst he1
          exact absurd hw1 hw

/-- C4 amended witness: reverting the sole (completed) experiment of a
concrete table with an accepting content store marks it `'reverted'`. -/
theorem experiment_status_transitions_amended_witness :
    ∀ e ∈ (revertExperiment (fun _ _ => true)
        [⟨1, 5, "Old", "New", ExpStatus.completed, none, none⟩] 1).2,
      e.id = 1 → e.status = ExpStatus.reverted :=
  (experiment_status_transitions_amended
    [⟨1, 5, "Old", "New", ExpStatus.completed, none, none⟩] 1 0
    Outcome.improved (fun _ _ => true)).2.2.2.1 (by decide)

/-- C9: when the content store rejects the title write, no experiment id is
returned and the record store is left untouched (no experiment row, no
`seo_changes` entry — both are written only after a successful write). -/
theorem implement_title_change_write_failure (getPostId : Option ℕ)
    (getCurrentTitle : ℕ → String) (setTitle : ℕ → String → Bool)
    (st : RecordStore) (pageUrl : ℕ) (newTitle : String) (postId : ℕ)
    (hpid : getPostId = some postId)
    (hw : setTitle postId newTitle = false) :
    implementTitleChange getPostId getCurrentTitle setTitle st pageUrl
      newTitle = (none, st) := by
  simp [implementTitleChange, hpid, hw]

/-- C9 witness: a rejecting content store on an empty record store — no id,
store unchanged. -/
theorem implement_title_change_write_failure_witness :
    implementTitleChange (some 7) (fun _ => "Old") (fun _ _ => false)
      ⟨[], []⟩ 1 "New" = (none, ⟨[], []⟩) :=
  implement_title_change_write_failure (some 7) (fun _ => "Old")
    (fun _ _ => false) ⟨[], []⟩ 1 "New" 7 rfl rfl

end CTRSys
